import Mathlib

/-!
Shallow embedding of the rdupe duplicate-file finder (telcharr/rdupe).

Source files embedded here:
- src/domain.rs            (FileMetadata, DuplicateSet, ScanConfig, FileCache, ScanResult)
- src/adapters/cache.rs    (is_cache_valid, filter_changed_files, the stage-0 cache logic)
- src/adapters/filesystem.rs (scan_files)
- src/services/duplicate_finder.rs (find_duplicates, progressive_hash_with_channels,
  hash_files_parallel, calculate_adaptive_partial_hash_size)

Modelling conventions:
- paths are an abstract type `π`, hash digest strings an abstract type `σ`,
  ignore-pattern strings an abstract type `ρ`; all with decidable equality
  (the source uses PathBuf / String, compared only for equality resp. order).
- `u64` / `usize` values are `Nat`; the values reachable in the modelled
  claims are far below 2^64, so wrapping does not matter for them.
- `SystemTime` is `Nat` (whole seconds since the epoch); `duration_since`
  succeeds exactly when the earlier time is ≤ the later one.
- Rust `Result` is `Except String`, `Option`/fallible per-file operations are
  `Option`.
- The hashing port (adapters/multi_hasher.rs) is external I/O; the pipeline
  receives it as two functions `hp : π → Nat → Option σ` (hash_partial:
  digest of the first n bytes, None = per-file IO failure) and
  `hf : π → Option σ` (hash_file).
- Rust `HashMap` grouping has unspecified iteration order; we realise it as
  grouping by the distinct keys in first-occurrence order, with each group
  holding its members in input order (exactly the multiset the HashMap
  produces, in one fixed linearisation).
- rayon parallel iteration is linearised sequentially; the claims proved
  about it are order-insensitive (set/multiset facts) or are stated about
  the linearised trace, as noted at the definition.
-/

namespace Rdupe

variable {π σ ρ : Type} [DecidableEq π] [DecidableEq σ]

/-- domain.rs `HashAlgorithm`: the algorithm selector carried by the config
(the digest computation itself sits behind the hashing port). -/
inductive HashAlgorithm where
  | blake3
  | md5
  | sha1
  | sha256
deriving DecidableEq, Repr

/-- domain.rs `FileMetadata`: one candidate file record. `modified` is the
mtime in seconds. -/
structure FileMetadata (π σ : Type) where
  path : π
  size : Nat
  partialHash : Option σ
  fullHash : Option σ
  modified : Nat
deriving DecidableEq, Repr

/-- domain.rs `FileMetadata::new`: fresh record with no hashes. -/
def FileMetadata.new (path : π) (size : Nat) (modified : Nat) : FileMetadata π σ :=
  { path := path, size := size, partialHash := none, fullHash := none, modified := modified }

/-- domain.rs `FileMetadata::with_partial_hash`. -/
def FileMetadata.withPartialHash (f : FileMetadata π σ) (h : σ) : FileMetadata π σ :=
  { f with partialHash := some h }

/-- domain.rs `FileMetadata::with_full_hash`. -/
def FileMetadata.withFullHash (f : FileMetadata π σ) (h : σ) : FileMetadata π σ :=
  { f with fullHash := some h }

/-- domain.rs `FileMetadata::get_best_hash`: full hash if present, else the
stage-2 hash. -/
def FileMetadata.getBestHash (f : FileMetadata π σ) : Option σ :=
  f.fullHash.or f.partialHash

/-- domain.rs `ScanConfig`. `ignorePatterns` models the `HashSet<String>` as
the sequence its iterator yields (iteration order is unspecified, which is
exactly what claim C4 is about). -/
structure ScanConfig (π ρ : Type) where
  paths : List π
  followSymlinks : Bool
  minSize : Nat
  maxDepth : Option Nat
  ignorePatterns : List ρ
  partialHashSize : Nat
  useMmapThreshold : Nat
  threadCount : Option Nat
  hashAlgorithm : HashAlgorithm
  crossFilesystem : Bool
  cacheFile : Option π
  incremental : Bool
deriving DecidableEq, Repr

/-- The exact sequence of fields that domain.rs `config_hash` feeds into
std's `DefaultHasher`, in source order, with `ignore_patterns` sorted first
(domain.rs lines 168-187). The source then compresses this sequence through
SipHash-1-3 and renders the 64-bit digest in hex; we model the digest by the
canonical hasher input it is a deterministic function of (the trailing
compression is an external primitive that is injective on the concretely
distinct inputs appearing in the claims). -/
structure ConfigFingerprint (π ρ : Type) where
  paths : List π
  followSymlinks : Bool
  minSize : Nat
  maxDepth : Option Nat
  sortedIgnorePatterns : List ρ
  partialHashSize : Nat
  useMmapThreshold : Nat
  threadCount : Option Nat
  hashAlgorithm : HashAlgorithm
  crossFilesystem : Bool
deriving DecidableEq, Repr

/-- domain.rs `ScanConfig::config_hash`: every field below is hashed, in this
order; `ignore_patterns` is collected and sorted before hashing. Note that
`thread_count` and `use_mmap_threshold` ARE part of the hashed input
(domain.rs lines 181-182); `cache_file` and `incremental` are not. -/
def ScanConfig.configHash [LinearOrder ρ] (cfg : ScanConfig π ρ) : ConfigFingerprint π ρ :=
  { paths := cfg.paths
    followSymlinks := cfg.followSymlinks
    minSize := cfg.minSize
    maxDepth := cfg.maxDepth
    sortedIgnorePatterns := List.insertionSort (· ≤ ·) cfg.ignorePatterns
    partialHashSize := cfg.partialHashSize
    useMmapThreshold := cfg.useMmapThreshold
    threadCount := cfg.threadCount
    hashAlgorithm := cfg.hashAlgorithm
    crossFilesystem := cfg.crossFilesystem }

/-- domain.rs `FileCache`: the persisted snapshot. `lastScan` in seconds,
`version` the tool version string. -/
structure FileCache (π σ ρ : Type) where
  files : List (FileMetadata π σ)
  scanConfigHash : ConfigFingerprint π ρ
  lastScan : Nat
  version : String
deriving DecidableEq, Repr

/-- adapters/cache.rs `is_cache_valid` (lines 34-50), checks in source order:
1. config-hash mismatch fails;
2. IF `SystemTime::now().duration_since(cache.last_scan)` succeeds (i.e.
   `last_scan ≤ now`) AND the elapsed seconds exceed 24h, fail — when
   `duration_since` errs (last_scan in the future) this check is skipped;
3. version mismatch fails; otherwise valid. -/
def isCacheValid [LinearOrder ρ] (cache : FileCache π σ ρ) (cfg : ScanConfig π ρ)
    (now : Nat) (currentVersion : String) : Bool :=
  if cache.scanConfigHash ≠ cfg.configHash then false
  else if cache.lastScan ≤ now ∧ 24 * 60 * 60 < now - cache.lastScan then false
  else if cache.version ≠ currentVersion then false
  else true

/-- adapters/cache.rs `filter_changed_files` (lines 52-65): keep a cached
record iff `fs::metadata` and `modified()` succeed and both size and mtime
equal the stored values. `statFn` models the `fs::metadata` call, returning
(len, modified) on success. -/
def filterChangedFiles (statFn : π → Option (Nat × Nat))
    (cachedFiles : List (FileMetadata π σ)) : List (FileMetadata π σ) :=
  cachedFiles.filter fun f =>
    match statFn f.path with
    | some (sz, m) => decide (sz = f.size) && decide (m = f.modified)
    | none => false

/-- services/duplicate_finder.rs `find_duplicates` lines 40-51 (stage 0 cache
acquisition): with a cache path configured and a loaded, valid snapshot,
incremental mode retains `filter_changed_files(snapshot.files)`, otherwise
the full snapshot; in every other case nothing is retained. `loadResult`
models `cache.load_cache` (Ok None = file absent, Err = unreadable or
malformed). -/
def cachedFilesFor [LinearOrder ρ] (cfg : ScanConfig π ρ)
    (loadResult : Except String (Option (FileCache π σ ρ)))
    (statFn : π → Option (Nat × Nat)) (now : Nat) (currentVersion : String) :
    List (FileMetadata π σ) :=
  match cfg.cacheFile with
  | none => []
  | some _ =>
    match loadResult with
    | Except.ok (some cache) =>
      if isCacheValid cache cfg now currentVersion then
        if cfg.incremental then filterChangedFiles statFn cache.files else cache.files
      else []
    | _ => []

/-- domain.rs `DuplicateSet`. -/
structure DuplicateSet (π σ : Type) where
  hash : σ
  files : List (FileMetadata π σ)
  totalSize : Nat
deriving DecidableEq, Repr

/-- domain.rs `DuplicateSet::new`: total_size is the sum of member sizes. -/
def DuplicateSet.new (h : σ) (files : List (FileMetadata π σ)) : DuplicateSet π σ :=
  { hash := h, files := files, totalSize := (files.map (·.size)).sum }

/-- The `files[0].size` expression (0 for an empty group; the source indexes
`files[0]` only behind a length guard). -/
def DuplicateSet.firstFileSize (g : DuplicateSet π σ) : Nat :=
  match g.files with
  | [] => 0
  | f :: _ => f.size

/-- domain.rs `DuplicateSet::wasted_space` (lines 77-83): 0 for groups of at
most one file, else `total_size - files[0].size`. -/
def DuplicateSet.wastedSpace (g : DuplicateSet π σ) : Nat :=
  if g.files.length ≤ 1 then 0 else g.totalSize - g.firstFileSize

/-- domain.rs `ScanResult`. -/
structure ScanResult (π σ : Type) where
  duplicates : List (DuplicateSet π σ)
  totalFilesScanned : Nat
  totalSizeScanned : Nat
  totalWastedSpace : Nat
deriving DecidableEq, Repr

/-- domain.rs `ScanResult::new` (lines 198-207): total_wasted_space is the
sum of the duplicate sets' wasted_space. -/
def ScanResult.new (duplicates : List (DuplicateSet π σ)) (totalFilesScanned : Nat)
    (totalSizeScanned : Nat) : ScanResult π σ :=
  { duplicates := duplicates
    totalFilesScanned := totalFilesScanned
    totalSizeScanned := totalSizeScanned
    totalWastedSpace := (duplicates.map (·.wastedSpace)).sum }

/-! ## Walker (adapters/filesystem.rs `scan_files`, lines 18-76) -/

/-- What `fs::metadata` reports for one walked entry: byte length, device id,
and the `modified()` timestamp (`None` models `metadata.modified()` failing,
which the source swallows with `.ok()?`). -/
structure EntryMeta where
  size : Nat
  dev : Nat
  modified : Option Nat
deriving DecidableEq, Repr

/-- One item yielded by the ignore-crate walker for a root: the entry's path,
whether `path.is_file()` holds, and the `fs::metadata(path)` outcome (`none`
models the metadata call failing). A walker item of `none` models an error
entry (`Err` from the walk iterator) — including the error produced when the
root itself does not exist, is not a directory, or is unreadable. -/
structure WalkEntry (π : Type) where
  path : π
  isFile : Bool
  meta : Option EntryMeta
deriving DecidableEq, Repr

/-- The per-entry body of the `filter_map` in scan_files (lines 45-67), in
source order: `entry.ok()?` (so an error item yields nothing), the
`is_file` check, `fs::metadata(path).ok()?`, the min-size filter, the
device check against the root device when one was captured, and
`metadata.modified().ok()?`. -/
def processEntry (minSize : Nat) (rootDev : Option Nat) :
    Option (WalkEntry π) → Option (FileMetadata π σ)
  | none => none
  | some entry =>
    if entry.isFile = false then none
    else
      match entry.meta with
      | none => none
      | some m =>
        if m.size < minSize then none
        else
          match rootDev with
          | some rd =>
            if m.dev ≠ rd then none
            else m.modified.map fun t => FileMetadata.new entry.path m.size t
          | none => m.modified.map fun t => FileMetadata.new entry.path m.size t

/-- adapters/filesystem.rs `scan_files`: each configured root is walked
independently (rayon `par_iter`, preserving root order in the collected
result) and the per-root entry lists are concatenated. `walk root` models
the item sequence the ignore-crate walker yields beneath `root` (symlink,
depth and ignore handling live inside that library); `rootDevOf` models
`fs::metadata(root).ok().map(|m| m.dev())`, captured only when
`cross_filesystem` is false. Every per-root closure ends in `Ok(entries)`
— no code path constructs an error — so the function is a wrapped
`Except.ok`. -/
def scanFiles (cfg : ScanConfig π ρ) (walk : π → List (Option (WalkEntry π)))
    (rootDevOf : π → Option Nat) : Except String (List (FileMetadata π σ)) :=
  Except.ok ((cfg.paths.map fun root =>
    (walk root).filterMap
      (processEntry cfg.minSize (if cfg.crossFilesystem then none else rootDevOf root))).flatten)

/-! ## Pipeline (services/duplicate_finder.rs) -/

/-- duplicate_finder.rs `calculate_adaptive_partial_hash_size`
(lines 202-215): the stage-2 prefix length as a function of file size and
the configured base size. -/
def calculateAdaptivePartialHashSize (fileSize baseSize : Nat) : Nat :=
  if fileSize ≤ 4096 then fileSize
  else if fileSize ≤ 65536 then min 1024 fileSize
  else if fileSize ≤ 1048576 then min baseSize fileSize
  else if fileSize ≤ 104857600 then min (baseSize * 2) fileSize
  else min (baseSize * 8) fileSize

/-- The per-file body of the stage loop in `hash_files_parallel`
(lines 150-171): stage 2 (`isPartialStage = true`) hashes the adaptive
prefix and stores it with `with_partial_hash`; stage 3 hashes the whole file
and stores it with `with_full_hash`; a hash error drops the file
(`Err(_) => continue`). The stored hashes on the incoming record are never
consulted. -/
def hashOneFile (hp : π → Nat → Option σ) (hf : π → Option σ) (baseSize : Nat)
    (isPartialStage : Bool) (f : FileMetadata π σ) : Option (FileMetadata π σ) :=
  if isPartialStage then
    (hp f.path (calculateAdaptivePartialHashSize f.size baseSize)).map f.withPartialHash
  else
    (hf f.path).map f.withFullHash

/-- The hash field a stage regroups by (line 186). -/
def stageHashField (isPartialStage : Bool) (f : FileMetadata π σ) : Option σ :=
  if isPartialStage then f.partialHash else f.fullHash

/-- HashMap grouping by an optional key (lines 116-123 and 184-189): records
whose key is `none` join no group; the rest are binned by key. Realised as
the distinct keys in first-occurrence order, each with its members in input
order — one fixed linearisation of the HashMap's unspecified order. -/
def groupByHashKey {α κ : Type} [DecidableEq κ] (key : α → Option κ) (xs : List α) :
    List (κ × List α) :=
  let keyed := xs.filterMap fun a => (key a).map fun h => (h, a)
  (keyed.map Prod.fst).dedup.map fun h =>
    (h, (keyed.filter fun q => decide (q.1 = h)).map Prod.snd)

/-- duplicate_finder.rs `hash_files_parallel` (lines 134-200): keep groups
with more than one member, hash each member (dropping per-file failures),
then for each processed group still holding more than one record, regroup by
the stage's hash field and keep the sub-groups with more than one member.
Each call allocates its own fresh progress counter (line 141) — see the
trace model below. rayon's `into_par_iter` is linearised in list order. -/
def hashFilesParallel (hp : π → Nat → Option σ) (hf : π → Option σ) (baseSize : Nat)
    (isPartialStage : Bool) (fileGroups : List (List (FileMetadata π σ))) :
    List (List (FileMetadata π σ)) :=
  let hashedGroups := (fileGroups.filter fun g => decide (1 < g.length)).map
    fun g => g.filterMap (hashOneFile hp hf baseSize isPartialStage)
  (hashedGroups.filter fun g => decide (1 < g.length)).flatMap fun g =>
    ((groupByHashKey (stageHashField isPartialStage) g).map Prod.snd).filter
      fun sub => decide (1 < sub.length)

/-- duplicate_finder.rs `progressive_hash_with_channels` (lines 105-132),
result part: stage 2 then stage 3, then pool every surviving record and bin
it by `get_best_hash` (all survivors carry a full hash, so this is the full
digest); groups with more than one member become DuplicateSets. The progress
calls of the same function are modelled by `progressiveHashTrace`. -/
def progressiveHash (hp : π → Nat → Option σ) (hf : π → Option σ) (baseSize : Nat)
    (szGroups : List (List (FileMetadata π σ))) : List (DuplicateSet π σ) :=
  ((groupByHashKey FileMetadata.getBestHash
      (hashFilesParallel hp hf baseSize false
        (hashFilesParallel hp hf baseSize true szGroups)).flatten).filter
    fun p => decide (1 < p.2.length)).map
    fun p => DuplicateSet.new p.1 p.2

/-- The loop body of the merge (find_duplicates lines 61-65): push the
walker record unless a record with its path is already present. -/
def mergeStep (merged : List (FileMetadata π σ)) (file : FileMetadata π σ) :
    List (FileMetadata π σ) :=
  if merged.any fun f => decide (f.path = file.path) then merged else merged ++ [file]

/-- find_duplicates lines 55-66: cached records whose path the walker still
reports are kept (in cache order), then each walker record whose path is not
already present is appended. -/
def mergeFiles (cachedFiles newFiles : List (FileMetadata π σ)) : List (FileMetadata π σ) :=
  newFiles.foldl mergeStep
    (cachedFiles.filter fun f => decide (f.path ∈ newFiles.map (·.path)))

/-- find_duplicates lines 53-69: the candidate set is the merge exactly when
incremental mode is on and the retained cached set is non-empty; otherwise
it is the walker output alone. -/
def candidateFiles (cfg : ScanConfig π ρ) (cachedFiles walkerOut : List (FileMetadata π σ)) :
    List (FileMetadata π σ) :=
  if cfg.incremental = true ∧ cachedFiles ≠ [] then mergeFiles cachedFiles walkerOut
  else walkerOut

/-- find_duplicates lines 78-86: partition the candidates by size (HashMap
linearised as distinct sizes in first-occurrence order) and keep the
partitions with more than one member. -/
def sizeGroups (files : List (FileMetadata π σ)) : List (List (FileMetadata π σ)) :=
  (files.map (·.size)).dedup.map fun s => files.filter fun f => decide (f.size = s)

/-- `potential_duplicates`: the non-singleton size partitions. -/
def potentialDuplicates (files : List (FileMetadata π σ)) : List (List (FileMetadata π σ)) :=
  (sizeGroups files).filter fun g => decide (1 < g.length)

/-- duplicate_finder.rs `find_duplicates` (lines 32-103), from the candidate
set on: empty candidates short-circuit to an all-zero result; candidates
with no non-singleton size group yield no duplicates; otherwise the
progressive hash runs. The cache save (lines 89-92, 97-100) is a write-only
side effect with its failure ignored, and the one-shot thread-pool
configuration (lines 33-38) touches no value modelled here; both are
omitted. -/
def findDuplicates (hp : π → Nat → Option σ) (hf : π → Option σ) (cfg : ScanConfig π ρ)
    (cachedFiles walkerOut : List (FileMetadata π σ)) : ScanResult π σ :=
  if (candidateFiles cfg cachedFiles walkerOut).isEmpty then ScanResult.new [] 0 0
  else if (potentialDuplicates (candidateFiles cfg cachedFiles walkerOut)).isEmpty then
    ScanResult.new [] (candidateFiles cfg cachedFiles walkerOut).length
      ((candidateFiles cfg cachedFiles walkerOut).map (·.size)).sum
  else
    ScanResult.new
      (progressiveHash hp hf cfg.partialHashSize
        (potentialDuplicates (candidateFiles cfg cachedFiles walkerOut)))
      (candidateFiles cfg cachedFiles walkerOut).length
      ((candidateFiles cfg cachedFiles walkerOut).map (·.size)).sum

/-- find_duplicates including the walker call (`self.filesystem.scan_files(config)?`):
the scan error, were one possible, would propagate. -/
def findDuplicatesScan (hp : π → Nat → Option σ) (hf : π → Option σ) (cfg : ScanConfig π ρ)
    (cachedFiles : List (FileMetadata π σ)) (walk : π → List (Option (WalkEntry π)))
    (rootDevOf : π → Option Nat) : Except String (ScanResult π σ) :=
  (scanFiles cfg walk rootDevOf).map fun walkerOut =>
    findDuplicates hp hf cfg cachedFiles walkerOut

/-! ## Progress trace (progressive_hash_with_channels lines 105-114 and
hash_files_parallel lines 140-179) -/

/-- One call on the Progress port. -/
inductive ProgressEvent where
  | start (total : Nat)
  | update (count : Nat)
  | finish
deriving DecidableEq, Repr

/-- How many times one `hash_files_parallel` call bumps its counter: once
per successfully hashed file of each kept group (`Err(_) => continue` skips
the bump, line 167-174). -/
def stageSuccessCount (hp : π → Nat → Option σ) (hf : π → Option σ) (baseSize : Nat)
    (isPartialStage : Bool) (fileGroups : List (List (FileMetadata π σ))) : Nat :=
  (((fileGroups.filter fun g => decide (1 < g.length)).map
    fun g => (g.filterMap (hashOneFile hp hf baseSize isPartialStage)).length)).sum

/-- The successive values a fresh `AtomicUsize` counter passes to
`progress.update`: `fetch_add` returns the previous value and
`update(count + 1)` is called, so k bumps emit 1, 2, …, k. Under rayon the
bumps of one stage may be observed in any interleaving; this is the
sequential linearisation (the multiset of values is execution-independent). -/
def counterUpdates (k : Nat) : List ProgressEvent :=
  (List.range k).map fun i => ProgressEvent.update (i + 1)

/-- The Progress-port call sequence of `progressive_hash_with_channels`:
`start(candidate_count * 2)` (line 111, comment "Partial + full hash"),
then the stage-2 updates, then the stage-3 updates — each stage counting
from a counter allocated fresh inside its own `hash_files_parallel` call
(line 141) — then `finish()`. -/
def progressiveHashTrace (hp : π → Nat → Option σ) (hf : π → Option σ) (baseSize : Nat)
    (szGroups : List (List (FileMetadata π σ))) : List ProgressEvent :=
  let total := (szGroups.map (·.length)).sum
  ProgressEvent.start (total * 2) ::
    (counterUpdates (stageSuccessCount hp hf baseSize true szGroups) ++
      counterUpdates (stageSuccessCount hp hf baseSize false
        (hashFilesParallel hp hf baseSize true szGroups)) ++
      [ProgressEvent.finish])

/-! ## Concrete instances used by witnesses and counterexamples -/

/-- A concrete config with the source defaults (domain.rs `Default for
ScanConfig`), with `Nat` paths and `Nat` ignore-pattern tokens. -/
def cfgBase : ScanConfig Nat Nat :=
  { paths := [0]
    followSymlinks := false
    minSize := 0
    maxDepth := none
    ignorePatterns := []
    partialHashSize := 8192
    useMmapThreshold := 67108864
    threadCount := none
    hashAlgorithm := HashAlgorithm.blake3
    crossFilesystem := true
    cacheFile := none
    incremental := false }

/-- A snapshot matching `cfgBase` in fingerprint and version whose
`last_scan` lies in the future relative to the `now` used in the C3
counterexample. -/
def cacheC3 : FileCache Nat Nat Nat :=
  { files := []
    scanConfigHash := cfgBase.configHash
    lastScan := 500
    version := "0.1.0" }

/-- A walker simulation for a root that cannot be read: the walk iterator
yields exactly one error item (what the ignore crate produces for a
nonexistent, non-directory, or unreadable root). -/
def walkC2 : Nat → List (Option (WalkEntry Nat)) := fun _ => [none]

/-- Incremental config with a cache path, for the C6 evaluation. -/
def cfgC6 : ScanConfig Nat Nat :=
  { cfgBase with cacheFile := some 9, incremental := true }

/-- A cached record for path 5 carrying hashes computed on a prior run. -/
def cachedRecC6 : FileMetadata Nat Nat :=
  { path := 5, size := 10, partialHash := some 99, fullHash := some 98, modified := 0 }

/-- Snapshot holding `cachedRecC6`, valid for `cfgC6` at time 200. -/
def cacheC6 : FileCache Nat Nat Nat :=
  { files := [cachedRecC6]
    scanConfigHash := cfgC6.configHash
    lastScan := 100
    version := "0.1.0" }

/-- stat for the C6 run: path 5 still has size 10 and mtime 0 (unchanged). -/
def statC6 : Nat → Option (Nat × Nat) := fun p => if p = 5 then some (10, 0) else none

/-- Hashing port for the C6 run: every prefix digest is 7, every full digest
is 8 (both differ from the cached 99 / 98, so any 7 or 8 in the output was
computed fresh by the port). -/
def hpC6 : Nat → Nat → Option Nat := fun _ _ => some 7

/-- Full-hash port for the C6 run. -/
def hfC6 : Nat → Option Nat := fun _ => some 8

/-- Walker output for the C6 run: the unchanged path 5 plus a new path 6 of
the same size. -/
def walkerC6 : List (FileMetadata Nat Nat) :=
  [FileMetadata.new 5 10 0, FileMetadata.new 6 10 0]

/-- Duplicate-candidate sets for the C8 witness: two files of size 10 with
full hash 4, built by the constructor the pipeline uses. -/
def dsC8 : List (DuplicateSet Nat Nat) :=
  [DuplicateSet.new 4
    [{ path := 1, size := 10, partialHash := none, fullHash := some 4, modified := 0 },
     { path := 2, size := 10, partialHash := none, fullHash := some 4, modified := 0 }]]

/-- Two same-size files for the C9 trace run. -/
def szGroupsC9 : List (List (FileMetadata Nat Nat)) :=
  [[FileMetadata.new 1 10 0, FileMetadata.new 2 10 0]]

/-- Hashing port for the C9 run: everything succeeds. -/
def hpC9 : Nat → Nat → Option Nat := fun _ _ => some 3

/-- Full-hash port for the C9 run. -/
def hfC9 : Nat → Option Nat := fun _ => some 4

/-- Config for the C10 run: the same root listed twice. -/
def cfgC10 : ScanConfig Nat Nat := { cfgBase with paths := [0, 0] }

/-- Walker simulation for C10: beneath root 0 sits a single regular file at
path 5, size 10, readable metadata. -/
def walkC10 : Nat → List (Option (WalkEntry Nat)) := fun r =>
  if r = 0 then [some { path := 5, isFile := true, meta := some { size := 10, dev := 0, modified := some 0 } }]
  else []

/-- Hashing port for the C10 run. -/
def hpC10 : Nat → Nat → Option Nat := fun _ _ => some 1

/-- Full-hash port for the C10 run. -/
def hfC10 : Nat → Option Nat := fun _ => some 2

/-- Byte contents for the C1 witness filesystem: paths 5 and 6 hold the one
byte `3`; other paths are empty. -/
def contentsC1 : Nat → List Nat := fun p => if p = 5 ∨ p = 6 then [3] else []

/-- Hash-prefix port for the C1 witness: digests are the raw byte prefix
(the identity digest, which is injective). -/
def hpC1 : Nat → Nat → Option (List Nat) := fun p n => some ((contentsC1 p).take n)

/-- Full-hash port for the C1 witness. -/
def hfC1 : Nat → Option (List Nat) := fun p => some (contentsC1 p)

/-- The two candidate records of the C1 witness. -/
def filesC1 : List (FileMetadata Nat (List Nat)) :=
  [FileMetadata.new 5 1 0, FileMetadata.new 6 1 0]

/-- Cached records for the C5 witness: path 5 with a stored stage-2 hash. -/
def cachedC5 : List (FileMetadata Nat Nat) :=
  [{ path := 5, size := 10, partialHash := some 42, fullHash := none, modified := 0 }]

/-- Walker output for the C5 witness: path 5 still present, path 7 new. -/
def walkerC5 : List (FileMetadata Nat Nat) :=
  [FileMetadata.new 5 10 0, FileMetadata.new 7 10 1]

/-- Incremental config for the C5 witness. -/
def cfgC5 : ScanConfig Nat Nat := { cfgBase with incremental := true }

/-! ## Theorems -/

/-- C7: the number of prefix bytes hashed in stage 2 for a file of size s,
with base = config.partial_hash_size, is exactly: s (the entire file) for
s ≤ 4096; min(1024, s) for 4097 ≤ s ≤ 65536; min(base, s) for
65537 ≤ s ≤ 1048576; min(2·base, s) for 1048577 ≤ s ≤ 104857600; and
min(8·base, s) above that. -/
theorem C7_adaptive_prefix_bytes (s base : Nat) :
    calculateAdaptivePartialHashSize s base =
      if s ≤ 4096 then s
      else if s ≤ 65536 then min 1024 s
      else if s ≤ 1048576 then min base s
      else if s ≤ 104857600 then min (2 * base) s
      else min (8 * base) s := by
  simp only [calculateAdaptivePartialHashSize, Nat.mul_comm base 2, Nat.mul_comm base 8]

/-- C3 counterexample: a snapshot whose `last_scan` (500) lies strictly in
the future of `now` (100), with matching fingerprint and version, is
accepted as valid — the claim says the underflowing subtraction must make it
invalid. -/
theorem C3_counterexample :
    isCacheValid cacheC3 cfgBase 100 "0.1.0" = true ∧ ¬ cacheC3.lastScan ≤ 100 := by
  decide

/-- C3 amended: `is_cache_valid` is true iff the fingerprint matches, the
version matches, and EITHER `last_scan` lies in the future (the
`duration_since` error branch, which skips the age check) OR the elapsed
time is at most 24 hours. -/
theorem C3_amended_validity [LinearOrder ρ] (cache : FileCache π σ ρ)
    (cfg : ScanConfig π ρ) (now : Nat) (ver : String) :
    isCacheValid cache cfg now ver = true ↔
      cache.scanConfigHash = cfg.configHash ∧ cache.version = ver ∧
        (now < cache.lastScan ∨ now - cache.lastScan ≤ 86400) := by
  unfold isCacheValid
  split_ifs with h1 h2 h3
  · simp only [Bool.false_eq_true, false_iff]
    rintro ⟨hh, -, -⟩
    exact h1 hh
  · simp only [Bool.false_eq_true, false_iff]
    rintro ⟨-, -, h⟩
    rcases h with h | h <;> omega
  · simp only [Bool.false_eq_true, false_iff]
    rintro ⟨-, hv, -⟩
    exact h3 hv
  · simp only [true_iff]
    refine ⟨not_not.mp h1, not_not.mp h3, ?_⟩
    omega

/-- C4 counterexample: two configs differing only in `thread_count` feed
different inputs to the config hasher (domain.rs line 182 hashes
`thread_count`), so their config hashes differ. -/
theorem C4_counterexample :
    ScanConfig.configHash { cfgBase with threadCount := some 4 } ≠ cfgBase.configHash := by
  decide

/-- C4 amended: the config hash is invariant under the iteration order of
`ignore_patterns` (the set is sorted before hashing); but `thread_count` is
part of the hashed input, so equal config hashes force equal thread counts
(and configs differing only there hash differently). -/
theorem C4_amended_config_hash [LinearOrder ρ] :
    (∀ (cfg : ScanConfig π ρ) (l : List ρ), cfg.ignorePatterns.Perm l →
      cfg.configHash = ScanConfig.configHash { cfg with ignorePatterns := l })
    ∧ ∀ c1 c2 : ScanConfig π ρ, c1.configHash = c2.configHash →
        c1.threadCount = c2.threadCount := by
  constructor
  · intro cfg l hperm
    have hs : List.insertionSort (· ≤ ·) cfg.ignorePatterns = List.insertionSort (· ≤ ·) l := by
      refine List.eq_of_perm_of_sorted ?_ (List.sorted_insertionSort _ _)
        (List.sorted_insertionSort _ _)
      exact ((List.perm_insertionSort _ _).trans hperm).trans (List.perm_insertionSort _ _).symm
    simp [ScanConfig.configHash, hs]
  · intro c1 c2 h
    exact congrArg ConfigFingerprint.threadCount h

/-- C4 amended, witness: permuting two ignore patterns leaves the config
hash unchanged. -/
theorem C4_amended_config_hash_witness :
    (([2, 1] : List Nat).Perm [1, 2])
    ∧ ScanConfig.configHash { cfgBase with ignorePatterns := [2, 1] }
        = ScanConfig.configHash { cfgBase with ignorePatterns := [1, 2] } :=
  ⟨by decide, C4_amended_config_hash.1 { cfgBase with ignorePatterns := [2, 1] } [1, 2] (by decide)⟩

/-- C8: under the invariants the pipeline establishes (non-empty group, all
member sizes equal, total_size the sum of sizes), every duplicate set
reports wasted_space = (len(files) − 1) · files[0].size, and
ScanResult::new's total_wasted_space is the sum of that expression over the
emitted sets. -/
theorem C8_wasted_space (ds : List (DuplicateSet π σ)) (n t : Nat)
    (hne : ∀ g ∈ ds, g.files ≠ [])
    (hsz : ∀ g ∈ ds, ∀ f ∈ g.files, f.size = g.firstFileSize)
    (htot : ∀ g ∈ ds, g.totalSize = (g.files.map (·.size)).sum) :
    (∀ g ∈ ds, g.wastedSpace = (g.files.length - 1) * g.firstFileSize)
    ∧ (ScanResult.new ds n t).totalWastedSpace
        = (ds.map fun g => (g.files.length - 1) * g.firstFileSize).sum := by
  have hset : ∀ g ∈ ds, g.wastedSpace = (g.files.length - 1) * g.firstFileSize := by
    intro g hg
    have hsum : (g.files.map (·.size)).sum = g.files.length * g.firstFileSize := by
      have hrepl : g.files.map (·.size)
          = List.replicate g.files.length g.firstFileSize := by
        refine List.eq_replicate_iff.mpr ⟨by simp, ?_⟩
        intro b hb
        rcases List.mem_map.mp hb with ⟨f, hf, rfl⟩
        exact hsz g hg f hf
      rw [hrepl, List.sum_replicate, smul_eq_mul]
    rcases hfe : g.files with _ | ⟨f0, fs⟩
    · exact absurd hfe (hne g hg)
    · rcases fs with _ | ⟨f1, fs'⟩
      · simp [DuplicateSet.wastedSpace, hfe]
      · have hgt : ¬ g.files.length ≤ 1 := by rw [hfe]; simp
        rw [DuplicateSet.wastedSpace, if_neg hgt, htot g hg, hsum, Nat.sub_mul, Nat.one_mul, hfe]
  refine ⟨hset, ?_⟩
  show (ds.map DuplicateSet.wastedSpace).sum = _
  rw [List.map_congr_left hset]

/-- C8 witness: a single two-file set of size 10 wastes 10 bytes. -/
theorem C8_wasted_space_witness :
    (∀ g ∈ dsC8, g.files ≠ [])
    ∧ (∀ g ∈ dsC8, ∀ f ∈ g.files, f.size = g.firstFileSize)
    ∧ (∀ g ∈ dsC8, g.totalSize = (g.files.map (·.size)).sum)
    ∧ ((∀ g ∈ dsC8, g.wastedSpace = (g.files.length - 1) * g.firstFileSize)
        ∧ (ScanResult.new dsC8 3 30).totalWastedSpace
            = (dsC8.map fun g => (g.files.length - 1) * g.firstFileSize).sum) :=
  ⟨by decide, by decide, by decide,
    C8_wasted_space dsC8 3 30 (by decide) (by decide) (by decide)⟩

/-- C2 counterexample: with a root whose walk yields only an error item
(nonexistent / not-a-directory / unreadable root), `scan_files` still
returns `Ok` — with no entries — instead of failing with a WalkError as the
claim requires. -/
theorem C2_counterexample :
    scanFiles (σ := Nat) cfgBase walkC2 (fun _ => none) = Except.ok []
    ∧ ∀ msg : String, scanFiles (σ := Nat) cfgBase walkC2 (fun _ => none) ≠ Except.error msg := by
  refine ⟨by rfl, ?_⟩
  intro msg h
  rw [scanFiles] at h
  exact Except.noConfusion h

/-- C2 amended: `scan_files` never fails. Every code path wraps its entries
in `Ok`; error items from the walk (including the one standing for a root
that does not exist, is not a directory, or is unreadable) are swallowed by
`entry.ok()?` and contribute nothing. Moreover every emitted record stems
from a successfully read regular-file entry meeting the min-size floor. -/
theorem C2_amended_scan_never_fails (cfg : ScanConfig π ρ)
    (walk : π → List (Option (WalkEntry π))) (rootDevOf : π → Option Nat) :
    ∃ fs, scanFiles (σ := σ) cfg walk rootDevOf = Except.ok fs
      ∧ ∀ f ∈ fs, ∃ root ∈ cfg.paths, ∃ e ∈ walk root, ∃ entry m,
          e = some entry ∧ entry.isFile = true ∧ entry.meta = some m
            ∧ cfg.minSize ≤ m.size ∧ f.path = entry.path ∧ f.size = m.size := by
  refine ⟨_, rfl, ?_⟩
  intro f hf
  rcases List.mem_flatten.mp hf with ⟨l, hl, hfl⟩
  rcases List.mem_map.mp hl with ⟨root, hroot, rfl⟩
  rcases List.mem_filterMap.mp hfl with ⟨e, he, hpe⟩
  refine ⟨root, hroot, e, he, ?_⟩
  rcases e with _ | entry
  · exact absurd hpe (by simp [processEntry])
  · refine ⟨entry, ?_⟩
    simp only [processEntry] at hpe
    split at hpe
    · exact absurd hpe (by simp)
    · rename_i hif
      split at hpe
      · exact absurd hpe (by simp)
      · rename_i m hme
        split at hpe
        · exact absurd hpe (by simp)
        · rename_i hsz
          have hfile : entry.isFile = true := by simpa using hif
          have hfm : ∃ t, m.modified = some t ∧ f = FileMetadata.new entry.path m.size t := by
            split at hpe
            · split at hpe
              · exact absurd hpe (by simp)
              · rcases Option.map_eq_some'.mp hpe with ⟨t, ht, hft⟩
                exact ⟨t, ht, hft.symm⟩
            · rcases Option.map_eq_some'.mp hpe with ⟨t, ht, hft⟩
              exact ⟨t, ht, hft.symm⟩
          rcases hfm with ⟨t, -, rfl⟩
          exact ⟨m, rfl, hfile, hme, by omega, rfl, rfl⟩

/-- C6 evaluation at the failing input: the snapshot is valid, path 5 is
unchanged (`filter_changed_files` retains it with its cached stage-2 digest
99 and full digest 98), yet the pipeline's output carries the fresh digests
7 and 8 that the hashing port produced this run — the cached hashes were
not reused and the unchanged file was re-hashed in both stages. -/
theorem C6_cached_hashes_not_reused :
    cachedFilesFor cfgC6 (Except.ok (some cacheC6)) statC6 200 "0.1.0" = [cachedRecC6]
    ∧ cachedRecC6.partialHash = some 99 ∧ cachedRecC6.fullHash = some 98
    ∧ (findDuplicates hpC6 hfC6 cfgC6
          (cachedFilesFor cfgC6 (Except.ok (some cacheC6)) statC6 200 "0.1.0")
          walkerC6).duplicates
        = [{ hash := 8,
             files := [{ path := 5, size := 10, partialHash := some 7, fullHash := some 8, modified := 0 },
                       { path := 6, size := 10, partialHash := some 7, fullHash := some 8, modified := 0 }],
             totalSize := 20 }] := by
  decide

/-- C9 counterexample: two same-size files that hash successfully in both
stages produce the update sequence 1, 2, 1, 2 — each `hash_files_parallel`
call counts from its own fresh AtomicUsize — not the single-counter
sequence 1, 2, 3, 4 the claim describes (against `start(4)`). -/
theorem C9_counterexample :
    progressiveHashTrace hpC9 hfC9 8192 szGroupsC9
      = [ProgressEvent.start 4, ProgressEvent.update 1, ProgressEvent.update 2,
         ProgressEvent.update 1, ProgressEvent.update 2, ProgressEvent.finish]
    ∧ progressiveHashTrace hpC9 hfC9 8192 szGroupsC9
        ≠ [ProgressEvent.start 4, ProgressEvent.update 1, ProgressEvent.update 2,
           ProgressEvent.update 3, ProgressEvent.update 4, ProgressEvent.finish] := by
  decide

/-- C10: with the same root listed twice over a single regular file (path 5,
size 10), the walker emits two records for the same path, and the pipeline
reports total_files_scanned = 2 and one DuplicateSet listing path 5 twice —
a single on-disk file reported as its own duplicate. -/
theorem C10_duplicate_roots :
    scanFiles (σ := Nat) cfgC10 walkC10 (fun _ => none)
      = Except.ok [FileMetadata.new 5 10 0, FileMetadata.new 5 10 0]
    ∧ findDuplicatesScan hpC10 hfC10 cfgC10 [] walkC10 (fun _ => none)
        = Except.ok
            { duplicates :=
                [{ hash := 2,
                   files := [{ path := 5, size := 10, partialHash := some 1, fullHash := some 2, modified := 0 },
                             { path := 5, size := 10, partialHash := some 1, fullHash := some 2, modified := 0 }],
                   totalSize := 20 }],
              totalFilesScanned := 2,
              totalSizeScanned := 20,
              totalWastedSpace := 10 } :=
  ⟨rfl, rfl⟩

/-- Membership in the merge fold: starting from any accumulator, the fold's
result holds exactly the accumulator plus those walker records whose path
the accumulator does not carry — provided walker records are determined by
their path (true of any single consistent filesystem snapshot). -/
theorem mergeFold_mem :
    ∀ (ws acc : List (FileMetadata π σ)) (x : FileMetadata π σ),
      (∀ w1 ∈ ws, ∀ w2 ∈ ws, w1.path = w2.path → w1 = w2) →
      (x ∈ ws.foldl mergeStep acc ↔
        x ∈ acc ∨ (x ∈ ws ∧ x.path ∉ acc.map (·.path)))
  | [], acc, x, _ => by simp
  | w :: ws, acc, x, hfun => by
    have hfun' : ∀ w1 ∈ ws, ∀ w2 ∈ ws, w1.path = w2.path → w1 = w2 := fun w1 h1 w2 h2 =>
      hfun w1 (List.mem_cons_of_mem _ h1) w2 (List.mem_cons_of_mem _ h2)
    rw [List.foldl_cons, mergeFold_mem ws (mergeStep acc w) x hfun']
    unfold mergeStep
    by_cases hany : (acc.any fun f => decide (f.path = w.path)) = true
    · rw [if_pos hany]
      have hwpath : w.path ∈ acc.map (·.path) := by
        rcases List.any_eq_true.mp hany with ⟨f, hf, hdec⟩
        have hfp : f.path = w.path := of_decide_eq_true hdec
        exact hfp ▸ List.mem_map_of_mem _ hf
      constructor
      · rintro (hx | ⟨hxws, hxp⟩)
        · exact Or.inl hx
        · exact Or.inr ⟨List.mem_cons_of_mem _ hxws, hxp⟩
      · rintro (hx | ⟨hxws, hxp⟩)
        · exact Or.inl hx
        · rcases List.mem_cons.mp hxws with rfl | hxws'
          · exact absurd hwpath hxp
          · exact Or.inr ⟨hxws', hxp⟩
    · rw [if_neg hany]
      have hwpath : w.path ∉ acc.map (·.path) := by
        intro hmem
        rcases List.mem_map.mp hmem with ⟨f, hf, hfp⟩
        exact hany (List.any_eq_true.mpr ⟨f, hf, decide_eq_true hfp⟩)
      constructor
      · rintro (hx | ⟨hxws, hxp⟩)
        · rcases List.mem_append.mp hx with hx' | hx'
          · exact Or.inl hx'
          · have hxw : x = w := by simpa using hx'
            subst hxw
            exact Or.inr ⟨List.mem_cons_self _ _, hwpath⟩
        · have hxp' : x.path ∉ acc.map (·.path) := by
            intro hc
            exact hxp (by rw [List.map_append]; exact List.mem_append.mpr (Or.inl hc))
          exact Or.inr ⟨List.mem_cons_of_mem _ hxws, hxp'⟩
      · rintro (hx | ⟨hxws, hxp⟩)
        · exact Or.inl (List.mem_append.mpr (Or.inl hx))
        · rcases List.mem_cons.mp hxws with rfl | hxws'
          · exact Or.inl (List.mem_append.mpr (Or.inr (by simp)))
          · by_cases hpw : x.path = w.path
            · have hxw : x = w :=
                hfun x (List.mem_cons_of_mem _ hxws') w (List.mem_cons_self _ _) hpw
              subst hxw
              exact Or.inl (List.mem_append.mpr (Or.inr (by simp)))
            · refine Or.inr ⟨hxws', ?_⟩
              rw [List.map_append]
              intro hc
              rcases List.mem_append.mp hc with hc' | hc'
              · exact hxp hc'
              · exact hpw (by simpa using hc')

/-- Membership in `mergeFiles`: exactly the cached records whose path the
walker still reports, together with the walker records whose path is absent
from the cache. -/
theorem mergeFiles_mem (cached ws : List (FileMetadata π σ))
    (hfun : ∀ w1 ∈ ws, ∀ w2 ∈ ws, w1.path = w2.path → w1 = w2)
    (x : FileMetadata π σ) :
    x ∈ mergeFiles cached ws ↔
      (x ∈ cached ∧ x.path ∈ ws.map (·.path))
      ∨ (x ∈ ws ∧ x.path ∉ cached.map (·.path)) := by
  unfold mergeFiles
  rw [mergeFold_mem ws _ x hfun]
  have hvc : ∀ y : FileMetadata π σ,
      y ∈ cached.filter (fun f => decide (f.path ∈ ws.map (·.path))) ↔
        y ∈ cached ∧ y.path ∈ ws.map (·.path) := by
    intro y
    rw [List.mem_filter, decide_eq_true_eq]
  have hvcp : ∀ p : π,
      p ∈ (cached.filter (fun f => decide (f.path ∈ ws.map (·.path)))).map (·.path) ↔
        p ∈ cached.map (·.path) ∧ p ∈ ws.map (·.path) := by
    intro p
    constructor
    · intro hp
      rcases List.mem_map.mp hp with ⟨f, hf, rfl⟩
      rcases (hvc f).mp hf with ⟨hf1, hf2⟩
      exact ⟨List.mem_map_of_mem _ hf1, hf2⟩
    · rintro ⟨hp1, hp2⟩
      rcases List.mem_map.mp hp1 with ⟨f, hf, rfl⟩
      exact List.mem_map_of_mem _ ((hvc f).mpr ⟨hf, hp2⟩)
  constructor
  · rintro (hx | ⟨hxws, hxp⟩)
    · exact Or.inl ((hvc x).mp hx)
    · exact Or.inr ⟨hxws, fun hc =>
        hxp ((hvcp x.path).mpr ⟨hc, List.mem_map_of_mem _ hxws⟩)⟩
  · rintro (⟨hxc, hxw⟩ | ⟨hxws, hxp⟩)
    · exact Or.inl ((hvc x).mpr ⟨hxc, hxw⟩)
    · exact Or.inr ⟨hxws, fun hc => hxp ((hvcp x.path).mp hc).1⟩

/-- C5: when incremental is true and the retained cached set is non-empty,
the candidate set is `{c in cached : c.path in walker_paths} ∪
{w in walker_out : w.path not in cached_paths}` (as a set of records, with
walker records determined by their paths); in every other case the
candidate set is exactly the walker output. -/
theorem C5_candidate_set (cfg : ScanConfig π ρ) (cached walkerOut : List (FileMetadata π σ))
    (hfun : ∀ w1 ∈ walkerOut, ∀ w2 ∈ walkerOut, w1.path = w2.path → w1 = w2) :
    (cfg.incremental = true → cached ≠ [] →
      ∀ x, x ∈ candidateFiles cfg cached walkerOut ↔
        (x ∈ cached ∧ x.path ∈ walkerOut.map (·.path))
        ∨ (x ∈ walkerOut ∧ x.path ∉ cached.map (·.path)))
    ∧ (¬ (cfg.incremental = true ∧ cached ≠ []) →
        candidateFiles cfg cached walkerOut = walkerOut) := by
  constructor
  · intro hinc hne x
    unfold candidateFiles
    rw [if_pos ⟨hinc, hne⟩]
    exact mergeFiles_mem cached walkerOut hfun x
  · intro hnot
    unfold candidateFiles
    rw [if_neg hnot]

/-- C5 witness: incremental merge over a cache holding path 5 (with a stored
hash) and a walker reporting paths 5 and 7. -/
theorem C5_candidate_set_witness :
    (∀ w1 ∈ walkerC5, ∀ w2 ∈ walkerC5, w1.path = w2.path → w1 = w2)
    ∧ ∀ x, x ∈ candidateFiles cfgC5 cachedC5 walkerC5 ↔
        (x ∈ cachedC5 ∧ x.path ∈ walkerC5.map (·.path))
        ∨ (x ∈ walkerC5 ∧ x.path ∉ cachedC5.map (·.path)) :=
  ⟨by decide, (C5_candidate_set cfgC5 cachedC5 walkerC5 (by decide)).1 rfl (by decide)⟩

/-- Sums of Nat lists are monotone under sublists. -/
theorem sublist_sum_le : ∀ {l1 l2 : List Nat}, l1.Sublist l2 → l1.sum ≤ l2.sum := by
  intro l1 l2 h
  induction h with
  | slnil => exact Nat.le_refl _
  | cons a _ ih => simpa using Nat.le_trans ih (Nat.le_add_left _ _)
  | cons₂ a _ ih => simpa using ih

/-- A stage bumps its counter at most once per file of its input groups. -/
theorem stageSuccessCount_le (hp : π → Nat → Option σ) (hf : π → Option σ) (baseSize : Nat)
    (isPartialStage : Bool) (groups : List (List (FileMetadata π σ))) :
    stageSuccessCount hp hf baseSize isPartialStage groups ≤ (groups.map (·.length)).sum := by
  unfold stageSuccessCount
  calc ((groups.filter fun g => decide (1 < g.length)).map
          fun g => (g.filterMap (hashOneFile hp hf baseSize isPartialStage)).length).sum
      ≤ ((groups.filter fun g => decide (1 < g.length)).map (·.length)).sum :=
        List.sum_le_sum fun g _ => List.length_filterMap_le _ _
    _ ≤ (groups.map (·.length)).sum :=
        sublist_sum_le ((List.filter_sublist _).map _)

/-- Splitting a list by a Boolean predicate preserves total length. -/
theorem length_filter_split {α : Type} (p : α → Bool) (l : List α) :
    (l.filter p).length + (l.filter fun a => !(p a)).length = l.length := by
  induction l with
  | nil => simp
  | cons a l ih =>
    cases hpa : p a <;> simp [List.filter_cons, hpa] <;> omega

/-- Binning a keyed list by pairwise-distinct keys never counts an element
twice: the per-key filter lengths sum to at most the list length. -/
theorem sum_filter_key_le {κ α : Type} [DecidableEq κ] :
    ∀ (ks : List κ), ks.Nodup → ∀ l : List (κ × α),
      (ks.map fun h => (l.filter fun q => decide (q.1 = h)).length).sum ≤ l.length
  | [], _, l => by simp
  | k :: ks, hnd, l => by
    have hk : k ∉ ks := (List.nodup_cons.mp hnd).1
    have hnd' : ks.Nodup := (List.nodup_cons.mp hnd).2
    have hswap : ∀ h ∈ ks,
        (l.filter fun q => decide (q.1 = h)).length
          = ((l.filter fun q => !(decide (q.1 = k))).filter
              fun q => decide (q.1 = h)).length := by
      intro h hh
      have hhk : h ≠ k := fun he => hk (he ▸ hh)
      rw [List.filter_filter]
      congr 1
      apply List.filter_congr
      intro q _
      by_cases hqh : q.1 = h
      · simp [hqh, hhk]
      · simp [hqh]
    rw [List.map_cons, List.sum_cons,
      List.map_congr_left hswap]
    have hIH := sum_filter_key_le ks hnd' (l.filter fun q => !(decide (q.1 = k)))
    have hsplit := length_filter_split (fun q => decide (q.1 = k)) l
    omega

/-- The groups produced by `groupByHashKey` jointly hold at most as many
records as the input list. -/
theorem groupByHashKey_sizes_le {α κ : Type} [DecidableEq κ] (key : α → Option κ)
    (xs : List α) :
    ((groupByHashKey key xs).map fun p => p.2.length).sum ≤ xs.length := by
  unfold groupByHashKey
  rw [List.map_map]
  have hcomp : ((fun p : κ × List α => p.2.length) ∘
      fun h => (h, ((xs.filterMap fun a => (key a).map fun hh => (hh, a)).filter
        fun q => decide (q.1 = h)).map Prod.snd))
      = fun h => ((xs.filterMap fun a => (key a).map fun hh => (hh, a)).filter
        fun q => decide (q.1 = h)).length := by
    funext h
    simp
  rw [hcomp]
  calc (((xs.filterMap fun a => (key a).map fun hh => (hh, a)).map Prod.fst).dedup.map
          fun h => ((xs.filterMap fun a => (key a).map fun hh => (hh, a)).filter
            fun q => decide (q.1 = h)).length).sum
      ≤ (xs.filterMap fun a => (key a).map fun hh => (hh, a)).length :=
        sum_filter_key_le _ (List.nodup_dedup _) _
    _ ≤ xs.length := List.length_filterMap_le _ _

/-- Summing a Nat-valued map over a flatMap groupwise. -/
theorem sum_map_flatMap {β γ : Type} (l : List β) (f : β → List γ) (g : γ → Nat) :
    ((l.flatMap f).map g).sum = (l.map fun a => ((f a).map g).sum).sum := by
  induction l with
  | nil => simp
  | cons a l ih => simp [List.flatMap_cons, ih]

/-- A hashing stage never grows the total number of records: the output
groups jointly hold at most as many files as the input groups. -/
theorem hashFilesParallel_sizes_le (hp : π → Nat → Option σ) (hf : π → Option σ)
    (baseSize : Nat) (isPartialStage : Bool) (groups : List (List (FileMetadata π σ))) :
    ((hashFilesParallel hp hf baseSize isPartialStage groups).map (·.length)).sum
      ≤ (groups.map (·.length)).sum := by
  unfold hashFilesParallel
  rw [sum_map_flatMap]
  calc (((((groups.filter fun g => decide (1 < g.length)).map
            fun g => g.filterMap (hashOneFile hp hf baseSize isPartialStage)).filter
              fun g => decide (1 < g.length)).map
          fun pg => ((((groupByHashKey (stageHashField isPartialStage) pg).map
            Prod.snd).filter fun sub => decide (1 < sub.length)).map (·.length)).sum)).sum
      ≤ ((((groups.filter fun g => decide (1 < g.length)).map
            fun g => g.filterMap (hashOneFile hp hf baseSize isPartialStage)).filter
              fun g => decide (1 < g.length)).map (·.length)).sum := by
        refine List.sum_le_sum fun pg _ => ?_
        calc ((((groupByHashKey (stageHashField isPartialStage) pg).map Prod.snd).filter
                fun sub => decide (1 < sub.length)).map (·.length)).sum
            ≤ (((groupByHashKey (stageHashField isPartialStage) pg).map Prod.snd).map
                (·.length)).sum := sublist_sum_le ((List.filter_sublist _).map _)
          _ = ((groupByHashKey (stageHashField isPartialStage) pg).map
                fun p => p.2.length).sum := by rw [List.map_map]; rfl
          _ ≤ pg.length := groupByHashKey_sizes_le _ _
    _ ≤ (((groups.filter fun g => decide (1 < g.length)).map
            fun g => g.filterMap (hashOneFile hp hf baseSize isPartialStage)).map
          (·.length)).sum := sublist_sum_le ((List.filter_sublist _).map _)
    _ ≤ ((groups.filter fun g => decide (1 < g.length)).map (·.length)).sum := by
        rw [List.map_map]
        exact List.sum_le_sum fun g _ => List.length_filterMap_le _ _
    _ ≤ (groups.map (·.length)).sum := sublist_sum_le ((List.filter_sublist _).map _)

/-- C9 amended: the trace is `start(2·candidate_count)`, then the stage-2
updates 1..k2, then the stage-3 updates 1..k3 (each stage counting from its
own fresh counter), then `finish()` — with k2 and k3 each at most
candidate_count (so no update value exceeds candidate_count, and the claimed
single shared counter spanning both stages does not exist). -/
theorem C9_amended_progress (hp : π → Nat → Option σ) (hf : π → Option σ) (baseSize : Nat)
    (szGroups : List (List (FileMetadata π σ))) :
    progressiveHashTrace hp hf baseSize szGroups
      = ProgressEvent.start ((szGroups.map (·.length)).sum * 2) ::
          (counterUpdates (stageSuccessCount hp hf baseSize true szGroups) ++
            counterUpdates (stageSuccessCount hp hf baseSize false
              (hashFilesParallel hp hf baseSize true szGroups)) ++
            [ProgressEvent.finish])
    ∧ stageSuccessCount hp hf baseSize true szGroups ≤ (szGroups.map (·.length)).sum
    ∧ stageSuccessCount hp hf baseSize false (hashFilesParallel hp hf baseSize true szGroups)
        ≤ (szGroups.map (·.length)).sum := by
  refine ⟨rfl, stageSuccessCount_le hp hf baseSize true szGroups, ?_⟩
  calc stageSuccessCount hp hf baseSize false (hashFilesParallel hp hf baseSize true szGroups)
      ≤ ((hashFilesParallel hp hf baseSize true szGroups).map (·.length)).sum :=
        stageSuccessCount_le hp hf baseSize false _
    _ ≤ (szGroups.map (·.length)).sum :=
        hashFilesParallel_sizes_le hp hf baseSize true szGroups

/-! ## Record bookkeeping facts used by the grouping proofs -/

@[simp] theorem ScanResult_new_duplicates (d : List (DuplicateSet π σ)) (n t : Nat) :
    (ScanResult.new d n t).duplicates = d := rfl

@[simp] theorem DuplicateSet_new_files (h : σ) (files : List (FileMetadata π σ)) :
    (DuplicateSet.new h files).files = files := rfl

@[simp] theorem DuplicateSet_new_hash (h : σ) (files : List (FileMetadata π σ)) :
    (DuplicateSet.new h files).hash = h := rfl

@[simp] theorem withPartialHash_path (f : FileMetadata π σ) (h : σ) :
    (f.withPartialHash h).path = f.path := rfl

@[simp] theorem withPartialHash_size (f : FileMetadata π σ) (h : σ) :
    (f.withPartialHash h).size = f.size := rfl

@[simp] theorem withPartialHash_field (f : FileMetadata π σ) (h : σ) :
    (f.withPartialHash h).partialHash = some h := rfl

@[simp] theorem withFullHash_path (f : FileMetadata π σ) (h : σ) :
    (f.withFullHash h).path = f.path := rfl

@[simp] theorem withFullHash_field (f : FileMetadata π σ) (h : σ) :
    (f.withFullHash h).fullHash = some h := rfl

@[simp] theorem getBestHash_withFullHash (f : FileMetadata π σ) (h : σ) :
    (f.withFullHash h).getBestHash = some h := rfl

/-- A list holding two distinct members has more than one element. -/
theorem one_lt_length_of_two_mem {α : Type} {l : List α} {a b : α}
    (ha : a ∈ l) (hb : b ∈ l) (hne : a ≠ b) : 1 < l.length := by
  rcases l with _ | ⟨x, l⟩
  · simp at ha
  · rcases l with _ | ⟨y, l⟩
    · simp at ha hb
      exact absurd (ha.trans hb.symm) hne
    · simp only [List.length_cons]
      omega

/-- The stage-2 branch of the per-file hashing body. -/
theorem hashOneFile_true_iff {hp : π → Nat → Option σ} {hf : π → Option σ}
    {baseSize : Nat} {f g : FileMetadata π σ} :
    hashOneFile hp hf baseSize true f = some g ↔
      ∃ h, hp f.path (calculateAdaptivePartialHashSize f.size baseSize) = some h
        ∧ g = f.withPartialHash h := by
  show (hp f.path (calculateAdaptivePartialHashSize f.size baseSize)).map f.withPartialHash
      = some g ↔ _
  rw [Option.map_eq_some']
  constructor
  · rintro ⟨h, hh, hg⟩
    exact ⟨h, hh, hg.symm⟩
  · rintro ⟨h, hh, hg⟩
    exact ⟨h, hh, hg.symm⟩

/-- The stage-3 branch of the per-file hashing body. -/
theorem hashOneFile_false_iff {hp : π → Nat → Option σ} {hf : π → Option σ}
    {baseSize : Nat} {f g : FileMetadata π σ} :
    hashOneFile hp hf baseSize false f = some g ↔
      ∃ h, hf f.path = some h ∧ g = f.withFullHash h := by
  show (hf f.path).map f.withFullHash = some g ↔ _
  rw [Option.map_eq_some']
  constructor
  · rintro ⟨h, hh, hg⟩
    exact ⟨h, hh, hg.symm⟩
  · rintro ⟨h, hh, hg⟩
    exact ⟨h, hh, hg.symm⟩

/-- Hashing a file never changes its path. -/
theorem hashOneFile_path {hp : π → Nat → Option σ} {hf : π → Option σ}
    {baseSize : Nat} {st : Bool} {f g : FileMetadata π σ}
    (h : hashOneFile hp hf baseSize st f = some g) : g.path = f.path := by
  cases st
  · rcases hashOneFile_false_iff.mp h with ⟨v, -, rfl⟩
    rfl
  · rcases hashOneFile_true_iff.mp h with ⟨v, -, rfl⟩
    rfl

/-- Everything inside a `groupByHashKey` group comes from the input and
carries the group's key. -/
theorem groupByHashKey_val_mem {α κ : Type} [DecidableEq κ] {key : α → Option κ}
    {xs : List α} {p : κ × List α} (hp : p ∈ groupByHashKey key xs) :
    ∀ a ∈ p.2, a ∈ xs ∧ key a = some p.1 := by
  intro a ha
  unfold groupByHashKey at hp
  rcases List.mem_map.mp hp with ⟨h, hh, rfl⟩
  rcases List.mem_map.mp ha with ⟨q, hq, rfl⟩
  rcases List.mem_filter.mp hq with ⟨hqk, hqh⟩
  rcases List.mem_filterMap.mp hqk with ⟨a0, ha0, hq0⟩
  rcases Option.map_eq_some'.mp hq0 with ⟨h0, hk0, hq1⟩
  subst hq1
  have hkey : h0 = h := of_decide_eq_true hqh
  exact ⟨ha0, by rw [hk0, hkey]⟩

/-- Two input records with the same (present) key land together in the group
of that key. -/
theorem groupByHashKey_pair {α κ : Type} [DecidableEq κ] {key : α → Option κ}
    {xs : List α} {a b : α} {h : κ}
    (ha : a ∈ xs) (hb : b ∈ xs) (hka : key a = some h) (hkb : key b = some h) :
    ∃ p ∈ groupByHashKey key xs, p.1 = h ∧ a ∈ p.2 ∧ b ∈ p.2 := by
  have hamem : (h, a) ∈ xs.filterMap fun x => (key x).map fun hh => (hh, x) :=
    List.mem_filterMap.mpr ⟨a, ha, by rw [hka]; rfl⟩
  have hbmem : (h, b) ∈ xs.filterMap fun x => (key x).map fun hh => (hh, x) :=
    List.mem_filterMap.mpr ⟨b, hb, by rw [hkb]; rfl⟩
  have hkey : h ∈ ((xs.filterMap fun x => (key x).map fun hh => (hh, x)).map Prod.fst).dedup :=
    List.mem_dedup.mpr (List.mem_map.mpr ⟨(h, a), hamem, rfl⟩)
  refine ⟨(h, ((xs.filterMap fun x => (key x).map fun hh => (hh, x)).filter
      fun q => decide (q.1 = h)).map Prod.snd), List.mem_map_of_mem _ hkey, rfl, ?_, ?_⟩
  · exact List.mem_map.mpr ⟨(h, a), List.mem_filter.mpr ⟨hamem, by simp⟩, rfl⟩
  · exact List.mem_map.mpr ⟨(h, b), List.mem_filter.mpr ⟨hbmem, by simp⟩, rfl⟩

/-- Every record a hashing stage emits was produced by `hashOneFile` from
some record of some input group. -/
theorem hashFilesParallel_flat_mem {hp : π → Nat → Option σ} {hf : π → Option σ}
    {baseSize : Nat} {st : Bool} {groups : List (List (FileMetadata π σ))}
    {G' : List (FileMetadata π σ)} (hG' : G' ∈ hashFilesParallel hp hf baseSize st groups)
    {f : FileMetadata π σ} (hfm : f ∈ G') :
    ∃ G ∈ groups, ∃ f0 ∈ G, hashOneFile hp hf baseSize st f0 = some f := by
  unfold hashFilesParallel at hG'
  rcases List.mem_flatMap.mp hG' with ⟨pg, hpg, hsub⟩
  rcases List.mem_filter.mp hpg with ⟨hpg1, -⟩
  rcases List.mem_map.mp hpg1 with ⟨G, hG, rfl⟩
  rcases List.mem_filter.mp hG with ⟨hGmem, -⟩
  rcases List.mem_filter.mp hsub with ⟨hsub1, -⟩
  rcases List.mem_map.mp hsub1 with ⟨p, hpm, rfl⟩
  have hval := groupByHashKey_val_mem hpm f hfm
  rcases List.mem_filterMap.mp hval.1 with ⟨f0, hf0, hsome⟩
  exact ⟨G, hGmem, f0, hf0, hsome⟩

/-- Two records of one input group whose hashes succeed with the same stage
key survive the stage together in one output group. -/
theorem hashFilesParallel_pair {hp : π → Nat → Option σ} {hf : π → Option σ}
    {baseSize : Nat} {st : Bool} {groups : List (List (FileMetadata π σ))}
    {G : List (FileMetadata π σ)} {f1 f2 g1 g2 : FileMetadata π σ} {h : σ}
    (hG : G ∈ groups) (h1 : f1 ∈ G) (h2 : f2 ∈ G) (hpne : f1.path ≠ f2.path)
    (ho1 : hashOneFile hp hf baseSize st f1 = some g1)
    (ho2 : hashOneFile hp hf baseSize st f2 = some g2)
    (hk1 : stageHashField st g1 = some h) (hk2 : stageHashField st g2 = some h) :
    ∃ G' ∈ hashFilesParallel hp hf baseSize st groups, g1 ∈ G' ∧ g2 ∈ G' := by
  have hfne : f1 ≠ f2 := fun he => hpne (congrArg FileMetadata.path he)
  have hGlen : 1 < G.length := one_lt_length_of_two_mem h1 h2 hfne
  have hGfilter : G ∈ groups.filter fun g => decide (1 < g.length) :=
    List.mem_filter.mpr ⟨hG, decide_eq_true hGlen⟩
  have hpgmem : G.filterMap (hashOneFile hp hf baseSize st)
      ∈ (groups.filter fun g => decide (1 < g.length)).map
          fun g => g.filterMap (hashOneFile hp hf baseSize st) :=
    List.mem_map_of_mem _ hGfilter
  have hg1 : g1 ∈ G.filterMap (hashOneFile hp hf baseSize st) :=
    List.mem_filterMap.mpr ⟨f1, h1, ho1⟩
  have hg2 : g2 ∈ G.filterMap (hashOneFile hp hf baseSize st) :=
    List.mem_filterMap.mpr ⟨f2, h2, ho2⟩
  have hgne : g1 ≠ g2 := fun he =>
    hpne (by rw [← hashOneFile_path ho1, ← hashOneFile_path ho2, he])
  have hpglen : 1 < (G.filterMap (hashOneFile hp hf baseSize st)).length :=
    one_lt_length_of_two_mem hg1 hg2 hgne
  rcases groupByHashKey_pair hg1 hg2 hk1 hk2 with ⟨p, hpm, -, hq1, hq2⟩
  have hplen : 1 < p.2.length := one_lt_length_of_two_mem hq1 hq2 hgne
  refine ⟨p.2, ?_, hq1, hq2⟩
  unfold hashFilesParallel
  refine List.mem_flatMap.mpr ⟨G.filterMap (hashOneFile hp hf baseSize st),
    List.mem_filter.mpr ⟨hpgmem, decide_eq_true hpglen⟩, ?_⟩
  exact List.mem_filter.mpr ⟨List.mem_map_of_mem _ hpm, decide_eq_true hplen⟩

/-- Every member of an emitted DuplicateSet keys to the set's hash and comes
out of the stage-3 output groups. -/
theorem progressiveHash_mem_files {hp : π → Nat → Option σ} {hf : π → Option σ}
    {baseSize : Nat} {szGroups : List (List (FileMetadata π σ))} {g : DuplicateSet π σ}
    (hg : g ∈ progressiveHash hp hf baseSize szGroups) :
    ∀ f ∈ g.files, f.getBestHash = some g.hash
      ∧ ∃ G' ∈ hashFilesParallel hp hf baseSize false
          (hashFilesParallel hp hf baseSize true szGroups), f ∈ G' := by
  intro f hfm
  unfold progressiveHash at hg
  rcases List.mem_map.mp hg with ⟨p, hpm, rfl⟩
  rcases List.mem_filter.mp hpm with ⟨hp1, -⟩
  have hval := groupByHashKey_val_mem hp1 f hfm
  refine ⟨hval.2, ?_⟩
  rcases List.mem_flatten.mp hval.1 with ⟨G', hG', hfG'⟩
  exact ⟨G', hG', hfG'⟩

/-- Every record in a stage-3 output group carries the full digest the
hashing port reported for its path, and that digest is its best hash. -/
theorem stage3_full_hash {hp : π → Nat → Option σ} {hf : π → Option σ}
    {baseSize : Nat} {groups : List (List (FileMetadata π σ))}
    {G' : List (FileMetadata π σ)}
    (hG' : G' ∈ hashFilesParallel hp hf baseSize false groups)
    {f : FileMetadata π σ} (hfm : f ∈ G') :
    ∃ h, hf f.path = some h ∧ f.fullHash = some h ∧ f.getBestHash = some h := by
  rcases hashFilesParallel_flat_mem hG' hfm with ⟨G, -, f0, -, hsome⟩
  rcases hashOneFile_false_iff.mp hsome with ⟨h, hfh, rfl⟩
  exact ⟨h, hfh, rfl, rfl⟩

/-- The emitted duplicate list is empty or exactly the progressive-hash
output over the non-singleton size groups of the candidate set. -/
theorem findDuplicates_duplicates_cases (hp : π → Nat → Option σ) (hf : π → Option σ)
    (cfg : ScanConfig π ρ) (cached walkerOut : List (FileMetadata π σ)) :
    (findDuplicates hp hf cfg cached walkerOut).duplicates = []
    ∨ (findDuplicates hp hf cfg cached walkerOut).duplicates
        = progressiveHash hp hf cfg.partialHashSize
            (potentialDuplicates (candidateFiles cfg cached walkerOut)) := by
  unfold findDuplicates
  split_ifs
  · exact Or.inl (ScanResult_new_duplicates _ _ _)
  · exact Or.inl (ScanResult_new_duplicates _ _ _)
  · exact Or.inr (ScanResult_new_duplicates _ _ _)

/-- Two candidates of equal size land together in a kept size group. -/
theorem potentialDuplicates_pair {files : List (FileMetadata π σ)}
    {f1 f2 : FileMetadata π σ}
    (h1 : f1 ∈ files) (h2 : f2 ∈ files) (hne : f1 ≠ f2) (hsz : f1.size = f2.size) :
    ∃ G ∈ potentialDuplicates files, f1 ∈ G ∧ f2 ∈ G := by
  have hm1 : f1 ∈ files.filter fun f => decide (f.size = f1.size) :=
    List.mem_filter.mpr ⟨h1, by simp⟩
  have hm2 : f2 ∈ files.filter fun f => decide (f.size = f1.size) :=
    List.mem_filter.mpr ⟨h2, by simp [hsz.symm]⟩
  have hkey : f1.size ∈ (files.map (·.size)).dedup :=
    List.mem_dedup.mpr (List.mem_map_of_mem _ h1)
  have hG : (files.filter fun f => decide (f.size = f1.size)) ∈ sizeGroups files :=
    List.mem_map_of_mem _ hkey
  have hlen : 1 < (files.filter fun f => decide (f.size = f1.size)).length :=
    one_lt_length_of_two_mem hm1 hm2 hne
  exact ⟨files.filter fun f => decide (f.size = f1.size),
    List.mem_filter.mpr ⟨hG, decide_eq_true hlen⟩, hm1, hm2⟩

/-- C1: soundness — in any emitted DuplicateSet all members have identical
byte content (given that the full-hash port reports the digest of a file's
content under an injective digest function); completeness — any two
candidate files with identical content, distinct paths, and successful
hashing in both stages appear together in one emitted DuplicateSet.
`contents` is the byte content of each path; the hypotheses say the hashing
port, when it succeeds, returns the digest of the (prefix of the) content,
and that the walker-recorded sizes agree with the content lengths. -/
theorem C1_grouping (hp : π → Nat → Option σ) (hf : π → Option σ) (cfg : ScanConfig π ρ)
    (cached walkerOut : List (FileMetadata π σ))
    (contents : π → List Nat) (H : List Nat → σ)
    (Hinj : Function.Injective H)
    (hfok : ∀ p h, hf p = some h → h = H (contents p))
    (hpok : ∀ p n h, hp p n = some h → h = H ((contents p).take n))
    (hsize : ∀ f ∈ candidateFiles cfg cached walkerOut, f.size = (contents f.path).length) :
    (∀ g ∈ (findDuplicates hp hf cfg cached walkerOut).duplicates,
      ∀ f1 ∈ g.files, ∀ f2 ∈ g.files, contents f1.path = contents f2.path)
    ∧ ∀ f1 ∈ candidateFiles cfg cached walkerOut,
        ∀ f2 ∈ candidateFiles cfg cached walkerOut,
        f1.path ≠ f2.path → contents f1.path = contents f2.path →
        (hp f1.path (calculateAdaptivePartialHashSize f1.size cfg.partialHashSize)).isSome
          = true →
        (hp f2.path (calculateAdaptivePartialHashSize f2.size cfg.partialHashSize)).isSome
          = true →
        (hf f1.path).isSome = true → (hf f2.path).isSome = true →
        ∃ g ∈ (findDuplicates hp hf cfg cached walkerOut).duplicates,
          f1.path ∈ g.files.map FileMetadata.path
            ∧ f2.path ∈ g.files.map FileMetadata.path := by
  constructor
  · intro g hg f1 hf1 f2 hf2
    rcases findDuplicates_duplicates_cases hp hf cfg cached walkerOut with hdup | hdup
    · rw [hdup] at hg
      simp at hg
    · rw [hdup] at hg
      rcases progressiveHash_mem_files hg f1 hf1 with ⟨hb1, G1, hG1, hm1⟩
      rcases progressiveHash_mem_files hg f2 hf2 with ⟨hb2, G2, hG2, hm2⟩
      rcases stage3_full_hash hG1 hm1 with ⟨v1, hfv1, -, hbest1⟩
      rcases stage3_full_hash hG2 hm2 with ⟨v2, hfv2, -, hbest2⟩
      have hv1 : v1 = g.hash := by
        rw [hbest1] at hb1
        exact Option.some.inj hb1
      have hv2 : v2 = g.hash := by
        rw [hbest2] at hb2
        exact Option.some.inj hb2
      apply Hinj
      rw [← hfok f1.path v1 hfv1, ← hfok f2.path v2 hfv2, hv1, hv2]
  · intro f1 hf1 f2 hf2 hpne hceq hps1 hps2 hfs1 hfs2
    have hsz : f1.size = f2.size := by
      rw [hsize f1 hf1, hsize f2 hf2, hceq]
    have hfne : f1 ≠ f2 := fun he => hpne (congrArg FileMetadata.path he)
    rcases potentialDuplicates_pair hf1 hf2 hfne hsz with ⟨G, hG, hm1, hm2⟩
    rcases Option.isSome_iff_exists.mp hps1 with ⟨a1, ha1⟩
    rcases Option.isSome_iff_exists.mp hps2 with ⟨a2, ha2⟩
    have hn2 : calculateAdaptivePartialHashSize f2.size cfg.partialHashSize
        = calculateAdaptivePartialHashSize f1.size cfg.partialHashSize := by
      rw [hsz]
    have haa : a2 = a1 := by
      rw [hpok f1.path _ a1 ha1, hpok f2.path _ a2 ha2, hn2, ← hceq]
    have ho1 : hashOneFile hp hf cfg.partialHashSize true f1
        = some (f1.withPartialHash a1) :=
      hashOneFile_true_iff.mpr ⟨a1, ha1, rfl⟩
    have ho2 : hashOneFile hp hf cfg.partialHashSize true f2
        = some (f2.withPartialHash a2) :=
      hashOneFile_true_iff.mpr ⟨a2, ha2, rfl⟩
    have hk1 : stageHashField true (f1.withPartialHash a1) = some a1 := rfl
    have hk2 : stageHashField true (f2.withPartialHash a2) = some a1 := by
      rw [show stageHashField true (f2.withPartialHash a2) = some a2 from rfl, haa]
    rcases hashFilesParallel_pair hG hm1 hm2 hpne ho1 ho2 hk1 hk2 with ⟨G2, hG2, hg1, hg2⟩
    rcases Option.isSome_iff_exists.mp hfs1 with ⟨v1, hv1⟩
    rcases Option.isSome_iff_exists.mp hfs2 with ⟨v2, hv2⟩
    have hvv : v2 = v1 := by
      rw [hfok f1.path v1 hv1, hfok f2.path v2 hv2, ← hceq]
    have ho1' : hashOneFile hp hf cfg.partialHashSize false (f1.withPartialHash a1)
        = some ((f1.withPartialHash a1).withFullHash v1) :=
      hashOneFile_false_iff.mpr ⟨v1, by rw [withPartialHash_path]; exact hv1, rfl⟩
    have ho2' : hashOneFile hp hf cfg.partialHashSize false (f2.withPartialHash a2)
        = some ((f2.withPartialHash a2).withFullHash v2) :=
      hashOneFile_false_iff.mpr ⟨v2, by rw [withPartialHash_path]; exact hv2, rfl⟩
    have hpne2 : (f1.withPartialHash a1).path ≠ (f2.withPartialHash a2).path := by
      simpa using hpne
    have hk1' : stageHashField false ((f1.withPartialHash a1).withFullHash v1)
        = some v1 := rfl
    have hk2' : stageHashField false ((f2.withPartialHash a2).withFullHash v2)
        = some v1 := by
      rw [show stageHashField false ((f2.withPartialHash a2).withFullHash v2)
          = some v2 from rfl, hvv]
    rcases hashFilesParallel_pair hG2 hg1 hg2 hpne2 ho1' ho2' hk1' hk2' with
      ⟨G3, hG3, hm1', hm2'⟩
    have hflat1 : (f1.withPartialHash a1).withFullHash v1
        ∈ (hashFilesParallel hp hf cfg.partialHashSize false
            (hashFilesParallel hp hf cfg.partialHashSize true
              (potentialDuplicates (candidateFiles cfg cached walkerOut)))).flatten :=
      List.mem_flatten.mpr ⟨G3, hG3, hm1'⟩
    have hflat2 : (f2.withPartialHash a2).withFullHash v2
        ∈ (hashFilesParallel hp hf cfg.partialHashSize false
            (hashFilesParallel hp hf cfg.partialHashSize true
              (potentialDuplicates (candidateFiles cfg cached walkerOut)))).flatten :=
      List.mem_flatten.mpr ⟨G3, hG3, hm2'⟩
    have hbk1 : ((f1.withPartialHash a1).withFullHash v1).getBestHash = some v1 := rfl
    have hbk2 : ((f2.withPartialHash a2).withFullHash v2).getBestHash = some v1 := by
      rw [getBestHash_withFullHash, hvv]
    rcases groupByHashKey_pair hflat1 hflat2 hbk1 hbk2 with ⟨p, hpm, -, hq1, hq2⟩
    have hgne : (f1.withPartialHash a1).withFullHash v1
        ≠ (f2.withPartialHash a2).withFullHash v2 := fun he =>
      hpne2 (by simpa using congrArg FileMetadata.path he)
    have hplen : 1 < p.2.length := one_lt_length_of_two_mem hq1 hq2 hgne
    have hne1 : ¬(candidateFiles cfg cached walkerOut).isEmpty = true := by
      rw [List.isEmpty_iff]
      exact List.ne_nil_of_mem hf1
    have hne2 : ¬(potentialDuplicates (candidateFiles cfg cached walkerOut)).isEmpty
        = true := by
      rw [List.isEmpty_iff]
      exact List.ne_nil_of_mem hG
    have hdup : (findDuplicates hp hf cfg cached walkerOut).duplicates
        = progressiveHash hp hf cfg.partialHashSize
            (potentialDuplicates (candidateFiles cfg cached walkerOut)) := by
      unfold findDuplicates
      rw [if_neg hne1, if_neg hne2]
      exact ScanResult_new_duplicates _ _ _
    refine ⟨DuplicateSet.new p.1 p.2, ?_, ?_, ?_⟩
    · rw [hdup]
      unfold progressiveHash
      exact List.mem_map_of_mem _ (List.mem_filter.mpr ⟨hpm, decide_eq_true hplen⟩)
    · rw [DuplicateSet_new_files]
      exact List.mem_map.mpr ⟨(f1.withPartialHash a1).withFullHash v1, hq1, rfl⟩
    · rw [DuplicateSet_new_files]
      exact List.mem_map.mpr ⟨(f2.withPartialHash a2).withFullHash v2, hq2, rfl⟩

/-- C1 witness: two one-byte files with equal content (paths 5 and 6), the
identity digest, and an always-succeeding hashing port; they appear together
in an emitted DuplicateSet. -/
theorem C1_grouping_witness :
    Function.Injective (fun l : List Nat => l)
    ∧ ∃ g ∈ (findDuplicates hpC1 hfC1 cfgBase [] filesC1).duplicates,
        (5 : Nat) ∈ g.files.map FileMetadata.path
          ∧ (6 : Nat) ∈ g.files.map FileMetadata.path :=
  ⟨fun _ _ hab => hab,
    (C1_grouping hpC1 hfC1 cfgBase [] filesC1 contentsC1 (fun l => l)
        (fun _ _ hab => hab)
        (fun p h hh => (Option.some.inj hh).symm)
        (fun p n h hh => (Option.some.inj hh).symm)
        (by decide)).2
      (FileMetadata.new 5 1 0) (by decide) (FileMetadata.new 6 1 0) (by decide)
      (by decide) (by decide) (by decide) (by decide) (by decide) (by decide)⟩

end Rdupe
